import Mathlib

/-!
Verification of the portfolio simulation engine of the algo_trading repository.

The Python sources are shallowly embedded:
* money amounts (Python floats) become exact rationals;
* dates become natural numbers (ordered as the datetime index is);
* a pandas price dict becomes a function from ticker to optional price;
* the mutable PortfolioManager object becomes a record threaded through
  explicit state-passing functions.
-/

namespace AlgoTrading

/-- Trade side; the Python code stores the strings BUY and SELL under the
dictionary key named type. -/
inductive Side where
  | BUY : Side
  | SELL : Side
deriving DecidableEq, Repr

/-- The opposite side. -/
def Side.other : Side → Side
  | .BUY => .SELL
  | .SELL => .BUY

/-- Python int(x) conversion on a real quantity: truncation toward zero. -/
def pyTrunc (x : ℚ) : ℤ :=
  if 0 ≤ x then ⌊x⌋ else -⌊-x⌋

/-- One entry of PortfolioManager.trade_log
(src/strategy/portfolio_manager.py, execute_buy / execute_sell). -/
structure TradeRecord where
  date : ℕ
  stock : String
  side : Side
  price : ℚ
  quantity : ℕ
  value : ℚ
  commission : ℚ
  cash_after : ℚ
deriving DecidableEq, Repr

/-- One entry of PortfolioManager.daily_values
(src/strategy/portfolio_manager.py, update_daily_value). -/
structure DailyValue where
  date : ℕ
  cash : ℚ
  stock_value : ℚ
  total_value : ℚ
  positions : String → ℕ

/-- PortfolioConfig (src/strategy/portfolio_manager.py lines 16-21): a plain
dataclass, whose generated constructor performs no validation at all. -/
structure PortfolioConfig where
  initial_cash : ℚ := 1000000
  commission : ℚ := 5 / 10000
  max_position_size : ℚ := 1 / 4
  min_cash_reserve : ℚ := 1 / 10
deriving DecidableEq, Repr

/-- The dataclass-generated constructor of PortfolioConfig: it accepts any
field values and never raises (there is no validation in the source). -/
def mkPortfolioConfig (initial_cash commission max_position_size
    min_cash_reserve : ℚ) : Except String PortfolioConfig :=
  .ok ⟨initial_cash, commission, max_position_size, min_cash_reserve⟩

/-- The mutable state of PortfolioManager: cash, per-stock share counts,
trade log and daily snapshot log. -/
structure PortfolioManager where
  config : PortfolioConfig
  stocks : List String
  cash : ℚ
  positions : String → ℕ
  trade_log : List TradeRecord
  daily_values : List DailyValue

/-- PortfolioManager.__init__ followed by reset
(src/strategy/portfolio_manager.py lines 28-38). -/
def PortfolioManager.init (config : PortfolioConfig) (stocks : List String) :
    PortfolioManager :=
  { config := config
    stocks := stocks
    cash := config.initial_cash
    positions := fun _ => 0
    trade_log := []
    daily_values := [] }

/-- PortfolioManager.get_portfolio_value (lines 40-46): cash plus the value of
every holding, a missing price contributing zero (dict get with default 0). -/
def PortfolioManager.get_portfolio_value (pm : PortfolioManager)
    (prices : String → Option ℚ) : ℚ :=
  pm.cash + (pm.stocks.map (fun s => (pm.positions s : ℚ) * ((prices s).getD 0))).sum

/-- PortfolioManager.get_available_cash_for_stock (lines 48-58). -/
def PortfolioManager.get_available_cash_for_stock (pm : PortfolioManager)
    (prices : String → Option ℚ) : ℚ :=
  let current_portfolio_value := pm.get_portfolio_value prices
  let max_allocation := current_portfolio_value * pm.config.max_position_size
  let min_cash_needed := current_portfolio_value * pm.config.min_cash_reserve
  let available_cash := max 0 (pm.cash - min_cash_needed)
  min available_cash max_allocation

/-- PortfolioManager.can_buy (lines 60-74): returns the pair of an
executability flag and the maximum quantity int(available_cash / price). -/
def PortfolioManager.can_buy (pm : PortfolioManager) (stock : String)
    (price : ℚ) (prices : String → Option ℚ) : Bool × ℤ :=
  if 0 < pm.positions stock then (false, 0)
  else
    let available_cash := pm.get_available_cash_for_stock prices
    if available_cash < price then (false, 0)
    else
      let max_qty := pyTrunc (available_cash / price)
      (decide (0 < max_qty), max_qty)

/-- PortfolioManager.can_sell (lines 76-81). -/
def PortfolioManager.can_sell (pm : PortfolioManager) (stock : String) :
    Bool × ℕ :=
  let qty := pm.positions stock
  (decide (0 < qty), qty)

/-- PortfolioManager.execute_buy (lines 83-116): on success deducts
trade value plus commission from cash, credits the shares, and appends a
trade record whose cash_after is the updated cash. -/
def PortfolioManager.execute_buy (pm : PortfolioManager) (stock : String)
    (price : ℚ) (date : ℕ) (prices : String → Option ℚ) :
    PortfolioManager × Bool :=
  let cb := pm.can_buy stock price prices
  if cb.1 then
    let q : ℕ := cb.2.toNat
    let trade_value := price * (q : ℚ)
    let commission := trade_value * pm.config.commission
    let total_cost := trade_value + commission
    let cash' := pm.cash - total_cost
    ({ pm with
        cash := cash'
        positions := fun s => if s = stock then pm.positions s + q else pm.positions s
        trade_log := pm.trade_log ++
          [{ date := date, stock := stock, side := .BUY, price := price,
             quantity := q, value := trade_value, commission := commission,
             cash_after := cash' }] }, true)
  else (pm, false)

/-- PortfolioManager.execute_sell (lines 118-149): on success liquidates the
full holding, credits trade value minus commission, and appends a trade
record whose cash_after is the updated cash. -/
def PortfolioManager.execute_sell (pm : PortfolioManager) (stock : String)
    (price : ℚ) (date : ℕ) : PortfolioManager × Bool :=
  let cs := pm.can_sell stock
  if cs.1 then
    let qty := cs.2
    let trade_value := price * (qty : ℚ)
    let commission := trade_value * pm.config.commission
    let total_received := trade_value - commission
    let cash' := pm.cash + total_received
    ({ pm with
        cash := cash'
        positions := fun s => if s = stock then 0 else pm.positions s
        trade_log := pm.trade_log ++
          [{ date := date, stock := stock, side := .SELL, price := price,
             quantity := qty, value := trade_value, commission := commission,
             cash_after := cash' }] }, true)
  else (pm, false)

/-- PortfolioManager.update_daily_value (lines 151-161). -/
def PortfolioManager.update_daily_value (pm : PortfolioManager) (date : ℕ)
    (prices : String → Option ℚ) : PortfolioManager :=
  let portfolio_value := pm.get_portfolio_value prices
  { pm with
      daily_values := pm.daily_values ++
        [{ date := date, cash := pm.cash,
           stock_value := portfolio_value - pm.cash,
           total_value := portfolio_value, positions := pm.positions }] }

/-- The loop body of PortfolioManager._calculate_max_drawdown
(lines 210-214), threading the running peak and running maximum drawdown. -/
def drawdownLoop : List ℚ → ℚ → ℚ → ℚ
  | [], _, md => md
  | v :: rest, peak, md =>
      let peak' := if peak < v then v else peak
      let dd := (peak' - v) / peak' * 100
      drawdownLoop rest peak' (max md dd)

/-- PortfolioManager._calculate_max_drawdown on a raw list of total values
(lines 201-216): returns 0 for fewer than two values, otherwise runs the
running-peak loop seeded with the first value. -/
def maxDrawdownOfValues (values : List ℚ) : ℚ :=
  if values.length < 2 then 0
  else
    match values with
    | [] => 0
    | v :: rest => drawdownLoop (v :: rest) v 0

/-- PortfolioManager._calculate_max_drawdown (lines 201-216). -/
def PortfolioManager.calculate_max_drawdown (pm : PortfolioManager) : ℚ :=
  maxDrawdownOfValues (pm.daily_values.map (fun d => d.total_value))

/-!
The multi-instrument engine loop of src/main.py, run_portfolio_backtest
(lines 54-77).  Its input is, per ticker and date, the optional triple of
that day's close price and buy/sell flags.
-/

/-- Per-ticker, per-date market row: close price, buy flag, sell flag.
A ticker absent on a date maps to none. -/
abbrev MarketData : Type := String → ℕ → Option (ℚ × Bool × Bool)

/-- The current_prices dict built in src/main.py lines 56-59 for one date. -/
def pricesOn (data : MarketData) (date : ℕ) : String → Option ℚ :=
  fun s => (data s date).map (fun r => r.1)

/-- The per-ticker body of the signal loop, src/main.py lines 62-73:
if the buy flag is set, attempt a buy; otherwise (elif) if the sell flag is
set, attempt a sell. -/
def processTicker (data : MarketData) (date : ℕ) (pm : PortfolioManager)
    (ticker : String) : PortfolioManager :=
  match data ticker date with
  | none => pm
  | some (price, buy, sell) =>
      if buy then (pm.execute_buy ticker price date (pricesOn data date)).1
      else if sell then (pm.execute_sell ticker price date).1
      else pm

/-- One date of the loop in src/main.py lines 54-77: process every ticker
that has data on the date, in configured list order, then take a daily
snapshot when at least one price is present. -/
def stepDay (data : MarketData) (tickers : List String)
    (pm : PortfolioManager) (date : ℕ) : PortfolioManager :=
  let present := tickers.filter (fun t => (data t date).isSome)
  let pm' := present.foldl (processTicker data date) pm
  if present.isEmpty then pm' else pm'.update_daily_value date (pricesOn data date)

/-- run_portfolio_backtest, src/main.py lines 25-79: fold the day step over
the ascending date list starting from a freshly initialised portfolio. -/
def runPortfolioBacktest (data : MarketData) (tickers : List String)
    (dates : List ℕ) (config : PortfolioConfig) : PortfolioManager :=
  dates.foldl (stepDay data tickers) (PortfolioManager.init config tickers)

/-!
The single-instrument vectorised engine, src/strategy/backtester.py.
Signal values may be NaN; an Option Bool models one signal cell, none
standing for NaN.  The price frame is the list of (date, close) rows in
index order; the signals frame is the list of (date, buy cell, sell cell)
rows in index order.
-/

/-- Banker's rounding of x to the nearest integer (Python round ties to
even), used through round(x, n) in the source. -/
def pyRoundInt (x : ℚ) : ℤ :=
  let f := ⌊x⌋
  let frac := x - (f : ℚ)
  if frac < 1 / 2 then f
  else if 1 / 2 < frac then f + 1
  else if Even f then f else f + 1

/-- Python round(x, n). -/
def pyRound (x : ℚ) (n : ℕ) : ℚ :=
  (pyRoundInt (x * (10 : ℚ) ^ n) : ℚ) / (10 : ℚ) ^ n

/-- Backtester dataclass fields (src/strategy/backtester.py lines 31-34):
no validation is generated for them. -/
structure Backtester where
  initial_cash : ℚ := 1000000
  commission : ℚ := 0
deriving DecidableEq, Repr

/-- The dataclass-generated constructor of Backtester: accepts any field
values and never raises. -/
def mkBacktester (initial_cash commission : ℚ) : Except String Backtester :=
  .ok ⟨initial_cash, commission⟩

/-- One row of the executed-trades book (backtester.py _execute lines
112-120); the Python dictionary key named type is the side. -/
structure BtTrade where
  date : ℕ
  side : Side
  price : ℚ
  qty : ℤ
  cash : ℚ
deriving DecidableEq, Repr

/-- One signal row: date, buy cell, sell cell (none = NaN). -/
abbrev SigRow : Type := ℕ × Option Bool × Option Bool

/-- pandas reindex(target, method ffill) on a date-ascending index: the
value served for date d is the row at the last index label at or before d,
or none when no label is at or before d. -/
def padLookup (sig : List SigRow) (d : ℕ) : Option (Option Bool × Option Bool) :=
  sig.foldl (fun acc e => if e.1 ≤ d then some e.2 else acc) none

/-- The effective (buy, sell) booleans the run loop sees for date d after
reindex(method ffill) followed by fillna(False) (backtester.py lines
59-61): a date with no signal row at or before it, and a NaN cell of the
row served, both become false. -/
def effSignals (sig : List SigRow) (d : ℕ) : Bool × Bool :=
  match padLookup sig d with
  | none => (false, false)
  | some (b, s) => (b.getD false, s.getD false)

/-- Live state of a run: _cash and _position (backtester.py lines 37-38). -/
structure BtState where
  cash : ℚ
  position : ℤ
deriving DecidableEq, Repr

/-- Backtester._execute (lines 105-120): signed cash and position update,
flat commission per trade, book row with price and cash rounded to 4
places. -/
def Backtester.execute (bt : Backtester) (st : BtState) (book : List BtTrade)
    (ts : ℕ) (side : Side) (price : ℚ) (qty : ℤ) : BtState × List BtTrade :=
  let pv := price * (qty : ℚ)
  let sign : ℚ := if side = .BUY then 1 else -1
  let cash' := st.cash - (sign * pv + bt.commission)
  let position' := st.position + (if side = .BUY then qty else -qty)
  ({ cash := cash', position := position' },
   book ++ [{ date := ts, side := side, price := pyRound price 4, qty := qty,
              cash := pyRound cash' 4 }])

/-- One iteration of the row loop in Backtester.run (lines 74-91): possibly
execute a trade, then append the mark-to-market equity for the row. -/
def btStep (bt : Backtester) (sig : List SigRow)
    (acc : BtState × List BtTrade × List (ℕ × ℚ)) (row : ℕ × ℚ) :
    BtState × List BtTrade × List (ℕ × ℚ) :=
  let st := acc.1
  let book := acc.2.1
  let equity := acc.2.2
  let ts := row.1
  let px := row.2
  let flags := effSignals sig ts
  let next :=
    if flags.1 && st.position = 0 then
      let qty := ⌊st.cash / px⌋
      if qty ≠ 0 then bt.execute st book ts .BUY px qty else (st, book)
    else if flags.2 && 0 < st.position then
      bt.execute st book ts .SELL px st.position
    else (st, book)
  (next.1, next.2, equity ++ [(ts, next.1.cash + (next.1.position : ℚ) * px)])

/-- Backtester.run (lines 41-102) restricted to its engine content: fold the
row loop over the price rows starting from the initial cash and a flat
position; returns the executed-trades book and the equity curve. -/
def Backtester.run (bt : Backtester) (price_rows : List (ℕ × ℚ))
    (sig : List SigRow) : List BtTrade × List (ℕ × ℚ) :=
  let r := price_rows.foldl (btStep bt sig)
    ({ cash := bt.initial_cash, position := 0 }, [], [])
  (r.2.1, r.2.2)

/-- The Boolean series whose mean is the win ratio of _build_summary (lines
133-135): per trade row, the row is a SELL and its recorded price exceeds
the previous row's recorded price (the first row's diff is NaN, hence
false).  The first argument carries the previous row's price. -/
def winFlags : Option ℚ → List BtTrade → List Bool
  | _, [] => []
  | prev, t :: rest =>
      ((decide (t.side = .SELL)) &&
        (match prev with | none => false | some p => decide (p < t.price))) ::
      winFlags (some t.price) rest

/-- The win-ratio value of _build_summary before rounding: the mean of the
winFlags series, NaN (none) for an empty trade book. -/
def winFracOfTrades (trades : List BtTrade) : Option ℚ :=
  if trades.isEmpty then none
  else some (((winFlags none trades).count true : ℚ) / (trades.length : ℚ))

/-- The one-row summary of Backtester._build_summary (lines 123-146). -/
structure BtSummary where
  initialCash : ℚ
  finalNav : ℚ
  totalReturnPct : ℚ
  tradeCount : ℕ
  winFrac : Option ℚ
deriving DecidableEq, Repr

/-- Backtester._build_summary (lines 123-146). -/
def Backtester.build_summary (bt : Backtester) (trades : List BtTrade)
    (pnl : List (ℕ × ℚ)) : BtSummary :=
  let final_nav := match pnl.getLast? with
    | none => bt.initial_cash
    | some e => e.2
  let total_return := (final_nav / bt.initial_cash - 1) * 100
  { initialCash := bt.initial_cash
    finalNav := pyRound final_nav 2
    totalReturnPct := pyRound total_return 2
    tradeCount := trades.length
    winFrac := (winFracOfTrades trades).map (fun w => pyRound w 2) }

/-!
Derived notions used to state the verified properties.
-/

/-- The spec-side cash allocator of spec section 4.1, written exactly as the
spec states it: min(max(0, cash - portfolioValue*minReserveFraction),
portfolioValue*maxPositionFraction). -/
def availableCashSpec (portfolioValue cash maxPositionFraction
    minReserveFraction : ℚ) : ℚ :=
  min (max 0 (cash - portfolioValue * minReserveFraction))
    (portfolioValue * maxPositionFraction)

/-- The sides of the trade records of one instrument, in log order. -/
def sidesFor (s : String) (log : List TradeRecord) : List Side :=
  (log.filter (fun r => r.stock = s)).map (fun r => r.side)

/-- Whether a side list strictly alternates, its first element being e. -/
def isAltFrom : Side → List Side → Bool
  | _, [] => true
  | e, x :: xs => (decide (x = e)) && isAltFrom e.other xs

/-- The side a strict alternation starting at e expects next after a list
of the given length. -/
def expectedSide (e : Side) (l : List Side) : Side :=
  if Even l.length then e else e.other

/-- Count of trade rows that are a SELL whose recorded price exceeds the
previous row's recorded price (pairing each row with its successor). -/
def sellWinCount (trades : List BtTrade) : ℕ :=
  (trades.zip (trades.drop 1)).countP
    (fun p => (decide (p.2.side = .SELL)) && (decide (p.1.price < p.2.price)))

/-- The win ratio as the claim words it: the number of SELL rows beating the
previous row's price divided by the number of SELL rows.  This is a
spec-side definition kept for comparison with the source computation. -/
def winFracClaimed (trades : List BtTrade) : Option ℚ :=
  if trades.isEmpty then none
  else some ((sellWinCount trades : ℚ) /
    (trades.countP (fun t => decide (t.side = .SELL)) : ℚ))

/-- Nonnegative cash everywhere: current cash, every logged trade's
cash_after, and every snapshot's cash. -/
def CashInv (pm : PortfolioManager) : Prop :=
  0 ≤ pm.cash ∧ (∀ r ∈ pm.trade_log, 0 ≤ r.cash_after) ∧
    (∀ dv ∈ pm.daily_values, 0 ≤ dv.cash)

/-- The configuration conditions under which the engine keeps cash
nonnegative: nonnegative commission at most 1, nonnegative reserve, and
the spendable fraction grossed up by commission at most the whole. -/
def GoodConfig (cfg : PortfolioConfig) : Prop :=
  0 ≤ cfg.commission ∧ cfg.commission ≤ 1 ∧ 0 ≤ cfg.min_cash_reserve ∧
    (1 - cfg.min_cash_reserve) * (1 + cfg.commission) ≤ 1

/-- Every price carried by the market data is positive. -/
def DataPricesPos (data : MarketData) : Prop :=
  ∀ s d r, data s d = some r → 0 < r.1

/-- Per-instrument alternation invariant: each instrument's side list
strictly alternates starting with BUY, and the share count is positive
exactly when that list has odd length. -/
def AltInv (pm : PortfolioManager) : Prop :=
  ∀ s, isAltFrom .BUY (sidesFor s pm.trade_log) = true ∧
    (Odd (sidesFor s pm.trade_log).length ↔ 0 < pm.positions s)

/-!
A reference-passing model of the pandas frames touched by Backtester.run,
used to verify that the run never writes to its two input frames: the
store holds every live DataFrame, a frame variable is an index into the
store, copy and reindex allocate fresh entries, and in-place column or
cell assignment overwrites one entry.
-/

/-- One DataFrame cell. -/
inductive Cell where
  | num : ℚ → Cell
  | flag : Bool → Cell
  | nan : Cell
deriving DecidableEq, Repr

/-- Numeric reading of a cell (missing data read as zero). -/
def Cell.toRat : Cell → ℚ
  | .num q => q
  | .flag b => if b then 1 else 0
  | .nan => 0

/-- Truthiness of a cell; NaN is truthy in Python, though the run only
reads boolean cells produced after fillna. -/
def Cell.toBool : Cell → Bool
  | .num q => decide (q ≠ 0)
  | .flag b => b
  | .nan => true

/-- A DataFrame: a date index and named columns of cells. -/
structure Frame where
  index : List ℕ
  cols : List (String × List Cell)
deriving DecidableEq, Repr

/-- Read a whole column (all-NaN when the column does not exist). -/
def Frame.getCol (f : Frame) (name : String) : List Cell :=
  match f.cols.find? (fun c => c.1 = name) with
  | some c => c.2
  | none => f.index.map (fun _ => Cell.nan)

/-- Assign a whole column, creating it when absent. -/
def Frame.setCol (f : Frame) (name : String) (vals : List Cell) : Frame :=
  if (f.cols.find? (fun c => c.1 = name)).isSome then
    { f with cols := f.cols.map (fun c => if c.1 = name then (name, vals) else c) }
  else
    { f with cols := f.cols ++ [(name, vals)] }

/-- Read the cell of a column at a date label. -/
def Frame.cellAt (f : Frame) (ts : ℕ) (name : String) : Cell :=
  match f.index.findIdx? (fun d => d = ts) with
  | none => Cell.nan
  | some i => (f.getCol name).getD i Cell.nan

/-- df.at assignment: overwrite the cell of a column at a date label. -/
def Frame.setAt (f : Frame) (ts : ℕ) (name : String) (v : Cell) : Frame :=
  match f.index.findIdx? (fun d => d = ts) with
  | none => f
  | some i => f.setCol name ((f.getCol name).set i v)

/-- The cell served for target date d by reindex(method ffill): the cell at
the last index label at or before d, NaN when there is none. -/
def padCell (labels : List ℕ) (col : List Cell) (d : ℕ) : Cell :=
  ((labels.zip col).foldl (fun acc e => if e.1 ≤ d then some e.2 else acc)
    none).getD Cell.nan

/-- signals.reindex(df.index, method ffill).fillna(False): a fresh frame on
the target index whose remaining NaN cells become the boolean false. -/
def reindexFfillFillna (sig : Frame) (idx : List ℕ) : Frame :=
  { index := idx
    cols := sig.cols.map (fun c =>
      (c.1, idx.map (fun d =>
        match padCell sig.index c.2 d with
        | Cell.nan => Cell.flag false
        | v => v))) }

/-- Forward fill of a cell column (equity ffill, backtester.py line 95). -/
def ffillCells (l : List Cell) : List Cell :=
  (l.foldl (fun (acc : List Cell × Cell) c =>
    match c with
    | Cell.nan => (acc.1 ++ [acc.2], acc.2)
    | v => (acc.1 ++ [v], v)) ([], Cell.nan)).1

/-- The store of live frames; a frame variable is an index into it. -/
abbrev Store : Type := List Frame

/-- Allocate a fresh frame, returning its reference. -/
def Store.alloc (st : Store) (f : Frame) : Store × ℕ :=
  (st ++ [f], st.length)

/-- Dereference a frame variable. -/
def Store.getF (st : Store) (i : ℕ) : Frame :=
  List.getD st i { index := [], cols := [] }

/-- Overwrite the frame a variable refers to (in-place mutation). -/
def Store.setF (st : Store) (i : ℕ) (f : Frame) : Store :=
  List.set st i f

/-- One row of the loop of Backtester.run (lines 74-91) over the frame
store: read close and the two flags from the copied df, possibly execute a
trade, then write the mark-to-market equity cell of the row in place. -/
def btFrameStep (bt : Backtester) (dfId : ℕ)
    (acc : Store × BtState × List BtTrade) (ts : ℕ) :
    Store × BtState × List BtTrade :=
  let store' := acc.1
  let s := acc.2.1
  let book := acc.2.2
  let df := store'.getF dfId
  let px := (df.cellAt ts "close").toRat
  let nxt :=
    if (df.cellAt ts "buy").toBool && s.position = 0 then
      let qty := ⌊s.cash / px⌋
      if qty ≠ 0 then bt.execute s book ts .BUY px qty else (s, book)
    else if (df.cellAt ts "sell").toBool && 0 < s.position then
      bt.execute s book ts .SELL px s.position
    else (s, book)
  let store'' := store'.setF dfId
    (df.setAt ts "equity" (Cell.num (nxt.1.cash + (nxt.1.position : ℚ) * px)))
  (store'', nxt.1, nxt.2)

/-- The statements of Backtester.run before the row loop (lines 56-67):
df = price_df.copy() allocates the working frame, the signal alignment
computes a fresh aligned frame, and the five column assignments mutate
the copy df in place.  Returns the prepared store, the reference of df,
and the reference of the aligned signals. -/
def btPrep (store : Store) (priceId sigId : ℕ) :
    Store × ℕ × ℕ :=
  let a1 := store.alloc (store.getF priceId)
  let st1 := a1.1
  let dfId := a1.2
  let a2 := st1.alloc (reindexFfillFillna (st1.getF sigId) (st1.getF dfId).index)
  let st2 := a2.1
  let sigsId := a2.2
  let st3 := st2.setF dfId ((st2.getF dfId).setCol "buy" ((st2.getF sigsId).getCol "buy"))
  let st4 := st3.setF dfId ((st3.getF dfId).setCol "sell" ((st3.getF sigsId).getCol "sell"))
  let st5 := st4.setF dfId ((st4.getF dfId).setCol "qty"
    ((st4.getF dfId).index.map (fun _ => Cell.num 0)))
  let st6 := st5.setF dfId ((st5.getF dfId).setCol "cash"
    ((st5.getF dfId).index.map (fun _ => Cell.nan)))
  let st7 := st6.setF dfId ((st6.getF dfId).setCol "equity"
    ((st6.getF dfId).index.map (fun _ => Cell.nan)))
  (st7, dfId, sigsId)

/-- Backtester.run (lines 41-102) transcribed statement by statement over
the frame store: df = price_df.copy() allocates, the signal alignment
allocates, every subsequent column and cell assignment mutates the copy
df in place, and the final df = df.copy() allocates again.  Returns the
resulting store, the reference of the final df, and the trade book. -/
def Backtester.runFrames (bt : Backtester) (store : Store)
    (priceId sigId : ℕ) : Store × ℕ × List BtTrade :=
  let p := btPrep store priceId sigId
  let st7 := p.1
  let dfId := p.2.1
  let res := (st7.getF dfId).index.foldl (btFrameStep bt dfId)
    (st7, ({ cash := bt.initial_cash, position := 0 } : BtState), ([] : List BtTrade))
  let a3 := res.1.alloc ((res.1.getF dfId).setCol "equity"
    (ffillCells ((res.1.getF dfId).getCol "equity")))
  (a3.1, a3.2, res.2.2)

/-!
Theorems.
-/

/-- Market data for the dual-flag scenario: instrument A, a pure buy day
followed by a day with both flags set. -/
def exDataBothFlags : MarketData := fun s d =>
  if s = "A" then
    if d = 1 then some (100, true, false)
    else if d = 2 then some (100, true, true)
    else none
  else none

/-- Configuration for the dual-flag scenario. -/
def exCfgBothFlags : PortfolioConfig :=
  { initial_cash := 1000, commission := 0, max_position_size := 1,
    min_cash_reserve := 0 }

/-- C1, counterexample: instrument A is bought on day 1, and on day 2 both
flags are true while the position is long; yet the run executes no SELL at
all (the buy branch is taken first and the sell branch sits behind an
elif), leaving the position open, against the claim that the SELL is
executed on that date. -/
theorem both_flags_long_no_sell_executed :
    exDataBothFlags "A" 2 = some (100, true, true) ∧
    (runPortfolioBacktest exDataBothFlags ["A"] [1] exCfgBothFlags).positions "A" = 10 ∧
    (runPortfolioBacktest exDataBothFlags ["A"] [1, 2] exCfgBothFlags).trade_log.countP
      (fun r => decide (r.side = .SELL)) = 0 ∧
    (runPortfolioBacktest exDataBothFlags ["A"] [1, 2] exCfgBothFlags).positions "A" = 10 := by
  with_unfolding_all decide

/-- C1, amended: while an instrument is long, a date whose buy flag is true
produces no trade at all for that instrument, whatever the sell flag
says — the attempted buy is refused and the elif skips the sell. -/
theorem buy_flag_blocks_sell_while_long (data : MarketData) (date : ℕ)
    (pm : PortfolioManager) (t : String) (p : ℚ) (sell : Bool)
    (hdata : data t date = some (p, true, sell))
    (hlong : 0 < pm.positions t) :
    processTicker data date pm t = pm := by
  unfold processTicker
  rw [hdata]
  simp [PortfolioManager.execute_buy, PortfolioManager.can_buy, hlong]

/-- A long portfolio state for the dual-flag scenario. -/
def exPmLong : PortfolioManager :=
  { config := exCfgBothFlags
    stocks := ["A"]
    cash := 3
    positions := fun s => if s = "A" then 2 else 0
    trade_log := []
    daily_values := [] }

/-- C1 witness: the amended statement applied on day 2 of the dual-flag
scenario, with a long position held. -/
theorem buy_flag_blocks_sell_while_long_witness :
    exDataBothFlags "A" 2 = some (100, true, true) ∧
    0 < exPmLong.positions "A" ∧
    processTicker exDataBothFlags 2 exPmLong "A" = exPmLong :=
  ⟨by with_unfolding_all decide, by with_unfolding_all decide,
    buy_flag_blocks_sell_while_long exDataBothFlags 2 exPmLong "A" 100 true
      (by with_unfolding_all decide) (by with_unfolding_all decide)⟩

/-- A portfolio state with negative cash and no holdings, showing the
allocator's degenerate-to-zero clause fails when portfolio value is
negative. -/
def exPmNegCash : PortfolioManager :=
  { config := { initial_cash := 100, commission := 0, max_position_size := 1 / 2,
                min_cash_reserve := 0 }
    stocks := []
    cash := -100
    positions := fun _ => 0
    trade_log := []
    daily_values := [] }

/-- C3, counterexample: with cash -100 and no positions the portfolio value
is -100, so cash is at most portfolioValue * minReserveFraction, yet the
allocator returns -50, not 0 (the max-allocation bound is negative). -/
theorem availableCash_not_zero_counterexample :
    exPmNegCash.cash ≤
      exPmNegCash.get_portfolio_value (fun _ => none) *
        exPmNegCash.config.min_cash_reserve ∧
    exPmNegCash.get_available_cash_for_stock (fun _ => none) = -50 ∧
    (-50 : ℚ) ≠ 0 := by
  with_unfolding_all decide

/-- C3, amended: the allocator returns exactly
min(max(0, cash - pv*minReserveFraction), pv*maxPositionFraction), and it
returns 0 whenever cash is at most pv*minReserveFraction, provided the
maximum allocation pv*maxPositionFraction is nonnegative (as it is
whenever the portfolio value is nonnegative). -/
theorem availableCash_matches_spec (pm : PortfolioManager)
    (prices : String → Option ℚ) :
    pm.get_available_cash_for_stock prices =
      availableCashSpec (pm.get_portfolio_value prices) pm.cash
        pm.config.max_position_size pm.config.min_cash_reserve ∧
    (0 ≤ pm.get_portfolio_value prices * pm.config.max_position_size →
      pm.cash ≤ pm.get_portfolio_value prices * pm.config.min_cash_reserve →
      pm.get_available_cash_for_stock prices = 0) := by
  constructor
  · rfl
  · intro hma hc
    unfold PortfolioManager.get_available_cash_for_stock
    have h1 : max 0 (pm.cash - pm.get_portfolio_value prices *
        pm.config.min_cash_reserve) = 0 :=
      max_eq_left (by linarith)
    simp only [h1]
    exact min_eq_left hma

/-- C3 witness: the allocator of a portfolio started with zero cash equals
the spec formula and degenerates to 0. -/
theorem availableCash_matches_spec_witness :
    (PortfolioManager.init { initial_cash := 0 } ["A"]).get_available_cash_for_stock
        (fun _ => none) =
      availableCashSpec
        ((PortfolioManager.init { initial_cash := 0 } ["A"]).get_portfolio_value
          (fun _ => none))
        (PortfolioManager.init { initial_cash := 0 } ["A"]).cash
        (PortfolioManager.init { initial_cash := 0 } ["A"]).config.max_position_size
        (PortfolioManager.init { initial_cash := 0 } ["A"]).config.min_cash_reserve ∧
    (PortfolioManager.init { initial_cash := 0 } ["A"]).get_available_cash_for_stock
      (fun _ => none) = 0 :=
  ⟨(availableCash_matches_spec _ _).1,
    (availableCash_matches_spec (PortfolioManager.init { initial_cash := 0 } ["A"])
      (fun _ => none)).2 (by with_unfolding_all decide) (by with_unfolding_all decide)⟩

/-- C4: for every executed trade of the multi-instrument engine the logged
record satisfies value = price*quantity and
commission = price*quantity*commissionRate; a BUY moves cash down by
value + commission, a SELL moves it up by value - commission, and the
record's cash_after equals the cash after the move. -/
theorem execute_trade_cash_accounting (pm : PortfolioManager) (stock : String)
    (price : ℚ) (date : ℕ) (prices : String → Option ℚ) :
    ((pm.execute_buy stock price date prices).2 = true →
      ∃ rec : TradeRecord,
        (pm.execute_buy stock price date prices).1.trade_log = pm.trade_log ++ [rec] ∧
        rec.value = rec.price * (rec.quantity : ℚ) ∧
        rec.commission = rec.price * (rec.quantity : ℚ) * pm.config.commission ∧
        (pm.execute_buy stock price date prices).1.cash =
          pm.cash - (rec.value + rec.commission) ∧
        rec.cash_after = (pm.execute_buy stock price date prices).1.cash) ∧
    ((pm.execute_sell stock price date).2 = true →
      ∃ rec : TradeRecord,
        (pm.execute_sell stock price date).1.trade_log = pm.trade_log ++ [rec] ∧
        rec.value = rec.price * (rec.quantity : ℚ) ∧
        rec.commission = rec.price * (rec.quantity : ℚ) * pm.config.commission ∧
        (pm.execute_sell stock price date).1.cash =
          pm.cash + (rec.value - rec.commission) ∧
        rec.cash_after = (pm.execute_sell stock price date).1.cash) := by
  constructor
  · intro h
    by_cases hcb : (pm.can_buy stock price prices).1
    · simp only [PortfolioManager.execute_buy, hcb, if_true]
      exact ⟨_, rfl, rfl, rfl, rfl, rfl⟩
    · simp [PortfolioManager.execute_buy, hcb] at h
  · intro h
    by_cases hcs : (pm.can_sell stock).1
    · simp only [PortfolioManager.execute_sell, hcs, if_true]
      exact ⟨_, rfl, rfl, rfl, rfl, rfl⟩
    · simp [PortfolioManager.execute_sell, hcs] at h

/-- The drawdown loop never goes below its running maximum seed. -/
lemma drawdownLoop_le (l : List ℚ) : ∀ peak md : ℚ, md ≤ drawdownLoop l peak md := by
  induction l with
  | nil => intro peak md; exact le_rfl
  | cons v rest ih =>
      intro peak md
      exact le_trans (le_max_left md _) (ih _ _)

/-- Over a nondecreasing tail whose head bounds the seed peak, the loop
keeps drawdown 0. -/
lemma drawdownLoop_chain (l : List ℚ) :
    ∀ peak : ℚ, List.Chain' (· ≤ ·) (peak :: l) → drawdownLoop l peak 0 = 0 := by
  induction l with
  | nil => intro peak _; rfl
  | cons v rest ih =>
      intro peak hch
      have hpv : peak ≤ v := (List.chain'_cons.mp hch).1
      have htail := (List.chain'_cons.mp hch).2
      have hpeak' : (if peak < v then v else peak) = v := by
        split_ifs with h
        · rfl
        · exact le_antisymm hpv (not_lt.mp h)
      simp only [drawdownLoop, hpeak']
      have hdd : (v - v) / v * 100 = 0 := by rw [sub_self, zero_div, zero_mul]
      rw [hdd, max_self]
      exact ih v htail

/-- The max-drawdown value is never negative. -/
lemma maxDrawdownOfValues_nonneg : ∀ l : List ℚ, 0 ≤ maxDrawdownOfValues l
  | [] => by simp [maxDrawdownOfValues]
  | v :: rest => by
      unfold maxDrawdownOfValues
      split_ifs with h
      · exact le_rfl
      · exact drawdownLoop_le (v :: rest) v 0

/-- The max-drawdown value of a nondecreasing sequence is 0. -/
lemma maxDrawdownOfValues_chain :
    ∀ l : List ℚ, List.Chain' (· ≤ ·) l → maxDrawdownOfValues l = 0
  | [], _ => by simp [maxDrawdownOfValues]
  | v :: rest, h => by
      unfold maxDrawdownOfValues
      split_ifs with hlen
      · rfl
      · simp only [drawdownLoop]
        rw [if_neg (lt_irrefl v)]
        have hdd : (v - v) / v * 100 = 0 := by rw [sub_self, zero_div, zero_mul]
        rw [hdd, max_self]
        exact drawdownLoop_chain rest v h

/-- Fewer than two values give drawdown 0. -/
lemma maxDrawdownOfValues_short (l : List ℚ) (h : l.length < 2) :
    maxDrawdownOfValues l = 0 := by
  unfold maxDrawdownOfValues
  rw [if_pos h]

/-- C7: the max-drawdown metric is 0 with fewer than two snapshots, is
always nonnegative, and is 0 whenever the total_value sequence is
monotonically nondecreasing. -/
theorem maxDrawdown_bounds (pm : PortfolioManager) :
    (pm.daily_values.length < 2 → pm.calculate_max_drawdown = 0) ∧
    0 ≤ pm.calculate_max_drawdown ∧
    (List.Chain' (· ≤ ·) (pm.daily_values.map (fun d => d.total_value)) →
      pm.calculate_max_drawdown = 0) := by
  unfold PortfolioManager.calculate_max_drawdown
  exact ⟨fun h => maxDrawdownOfValues_short _ (by simpa using h),
    maxDrawdownOfValues_nonneg _, maxDrawdownOfValues_chain _⟩

/-- Two nondecreasing snapshots for the drawdown witness. -/
def exPmSnaps : PortfolioManager :=
  { config := {}
    stocks := []
    cash := 0
    positions := fun _ => 0
    trade_log := []
    daily_values :=
      [{ date := 1, cash := 0, stock_value := 0, total_value := 10, positions := fun _ => 0 },
       { date := 2, cash := 0, stock_value := 0, total_value := 12, positions := fun _ => 0 }] }

/-- C7 witness: the drawdown bounds applied to a concrete two-snapshot
state and to an empty state. -/
theorem maxDrawdown_bounds_witness :
    (List.Chain' (· ≤ ·) (exPmSnaps.daily_values.map (fun d => d.total_value)) ∧
      exPmSnaps.calculate_max_drawdown = 0) ∧
    ((PortfolioManager.init {} []).daily_values.length < 2 ∧
      (PortfolioManager.init {} []).calculate_max_drawdown = 0) :=
  ⟨⟨by
      show List.Chain' (· ≤ ·) [(10 : ℚ), 12]
      exact List.chain'_cons.mpr ⟨by norm_num, List.chain'_singleton _⟩,
      (maxDrawdown_bounds exPmSnaps).2.2 (by
        show List.Chain' (· ≤ ·) [(10 : ℚ), 12]
        exact List.chain'_cons.mpr ⟨by norm_num, List.chain'_singleton _⟩)⟩,
    ⟨by with_unfolding_all decide,
      (maxDrawdown_bounds (PortfolioManager.init {} [])).1 (by with_unfolding_all decide)⟩⟩

/-- Configuration with a 10 percent commission for the accounting witness. -/
def exCfgAcct : PortfolioConfig :=
  { initial_cash := 1000, commission := 1 / 10, max_position_size := 1,
    min_cash_reserve := 0 }

/-- Price map for the accounting witness. -/
def exPricesAcct : String → Option ℚ := fun s => if s = "A" then some 100 else none

/-- Flat starting state for the accounting witness's buy leg. -/
def exPmAcctBuy : PortfolioManager := PortfolioManager.init exCfgAcct ["A"]

/-- Long starting state for the accounting witness's sell leg. -/
def exPmAcctSell : PortfolioManager :=
  { PortfolioManager.init exCfgAcct ["A"] with
      positions := fun s => if s = "A" then 5 else 0 }

/-- C4 witness: the accounting equations applied to one executed buy and
one executed sell. -/
theorem execute_trade_cash_accounting_witness :
    ((exPmAcctBuy.execute_buy "A" 100 1 exPricesAcct).2 = true ∧
      ∃ rec : TradeRecord,
        (exPmAcctBuy.execute_buy "A" 100 1 exPricesAcct).1.trade_log =
          exPmAcctBuy.trade_log ++ [rec] ∧
        rec.value = rec.price * (rec.quantity : ℚ) ∧
        rec.commission = rec.price * (rec.quantity : ℚ) * exPmAcctBuy.config.commission ∧
        (exPmAcctBuy.execute_buy "A" 100 1 exPricesAcct).1.cash =
          exPmAcctBuy.cash - (rec.value + rec.commission) ∧
        rec.cash_after = (exPmAcctBuy.execute_buy "A" 100 1 exPricesAcct).1.cash) ∧
    ((exPmAcctSell.execute_sell "A" 100 1).2 = true ∧
      ∃ rec : TradeRecord,
        (exPmAcctSell.execute_sell "A" 100 1).1.trade_log =
          exPmAcctSell.trade_log ++ [rec] ∧
        rec.value = rec.price * (rec.quantity : ℚ) ∧
        rec.commission = rec.price * (rec.quantity : ℚ) * exPmAcctSell.config.commission ∧
        (exPmAcctSell.execute_sell "A" 100 1).1.cash =
          exPmAcctSell.cash + (rec.value - rec.commission) ∧
        rec.cash_after = (exPmAcctSell.execute_sell "A" 100 1).1.cash) :=
  ⟨⟨by with_unfolding_all decide,
      (execute_trade_cash_accounting exPmAcctBuy "A" 100 1 exPricesAcct).1
        (by with_unfolding_all decide)⟩,
    ⟨by with_unfolding_all decide,
      (execute_trade_cash_accounting exPmAcctSell "A" 100 1 exPricesAcct).2
        (by with_unfolding_all decide)⟩⟩

/-- One-instrument market data used to run the engine under an invalid
configuration. -/
def exData9 : MarketData := fun s d =>
  if s = "A" ∧ d = 1 then some (10, false, false) else none

/-- An invalid configuration: negative initial cash, out-of-range maximum
position fraction, negative reserve fraction. -/
def exBadCfg : PortfolioConfig :=
  { initial_cash := -1, commission := 1 / 2000, max_position_size := 2,
    min_cash_reserve := -1 / 10 }

/-- C9, counterexample: constructing configurations with non-positive
initial cash, a max-position fraction above 1 and a negative reserve
fraction succeeds (no error is raised), and the engine happily runs and
produces a snapshot under such a configuration. -/
theorem invalid_config_not_rejected :
    mkPortfolioConfig (-1) (1 / 2000) 2 (-1 / 10) = .ok exBadCfg ∧
    mkBacktester (-5) 0 = .ok { initial_cash := -5, commission := 0 } ∧
    (runPortfolioBacktest exData9 ["A"] [1] exBadCfg).daily_values.length = 1 :=
  ⟨rfl, rfl, by with_unfolding_all decide⟩

/-- C9, amended: the engine performs no configuration validation at all;
both dataclass constructors accept arbitrary values and never raise. -/
theorem constructors_never_raise :
    (∀ a b c d : ℚ, mkPortfolioConfig a b c d =
      .ok { initial_cash := a, commission := b, max_position_size := c,
            min_cash_reserve := d }) ∧
    (∀ a b : ℚ, mkBacktester a b = .ok { initial_cash := a, commission := b }) :=
  ⟨fun _ _ _ _ => rfl, fun _ _ => rfl⟩

/-- Counting the winning flags over a tail equals counting winning
successor pairs headed by the carried previous trade. -/
lemma winFlags_count_zip (l : List BtTrade) :
    ∀ t : BtTrade, (winFlags (some t.price) l).count true =
      ((t :: l).zip l).countP
        (fun p => (decide (p.2.side = .SELL)) && (decide (p.1.price < p.2.price))) := by
  induction l with
  | nil => intro t; rfl
  | cons b xs ih =>
      intro t
      simp only [winFlags, List.zip_cons_cons, List.count_cons, List.countP_cons, ih b,
        beq_iff_eq]

/-- The fold computing the win ratio counts SELL rows beating their
predecessor, divided by the total number of rows. -/
lemma winFracOfTrades_eq (trades : List BtTrade) (h : trades ≠ []) :
    winFracOfTrades trades =
      some ((sellWinCount trades : ℚ) / (trades.length : ℚ)) := by
  match trades with
  | t :: rest =>
      unfold winFracOfTrades sellWinCount
      simp only [List.isEmpty_cons, Bool.false_eq_true, if_false, List.drop_succ_cons,
        List.drop_zero, winFlags, List.count_cons, Bool.and_false, beq_iff_eq,
        add_zero, winFlags_count_zip rest t]

/-- Trade book of the single-instrument engine for the win-ratio scenario:
one buy day followed by one profitable sell day. -/
def exBtWins : Backtester := { initial_cash := 1000, commission := 0 }

/-- Price rows for the win-ratio scenario. -/
def exRowsWins : List (ℕ × ℚ) := [(1, 100), (2, 110)]

/-- Signal rows for the win-ratio scenario. -/
def exSigWins : List SigRow := [(1, some true, some false), (2, some false, some true)]

/-- C2, counterexample: the run produces one BUY then one winning SELL, so
the claimed ratio (denominator = number of SELL trades) is 1, but the
summary reports 1/2 because the mean is taken over all trade rows. -/
theorem winFrac_denominator_counterexample :
    (exBtWins.run exRowsWins exSigWins).1.length = 2 ∧
    winFracClaimed (exBtWins.run exRowsWins exSigWins).1 = some 1 ∧
    (exBtWins.build_summary (exBtWins.run exRowsWins exSigWins).1
      (exBtWins.run exRowsWins exSigWins).2).winFrac = some (1 / 2) ∧
    ((1 : ℚ) / 2) ≠ 1 := by
  with_unfolding_all decide

/-- C2, amended: for every non-empty trade book the reported win ratio is
the number of SELL rows whose recorded price exceeds the preceding row's
recorded price divided by the TOTAL number of trade rows (BUYs included),
rounded to two places. -/
theorem winFrac_denominator_is_total (bt : Backtester) (trades : List BtTrade)
    (pnl : List (ℕ × ℚ)) (h : trades ≠ []) :
    (bt.build_summary trades pnl).winFrac =
      some (pyRound ((sellWinCount trades : ℚ) / (trades.length : ℚ)) 2) := by
  unfold Backtester.build_summary
  rw [winFracOfTrades_eq trades h]
  rfl

/-- C2 witness: the amended win-ratio formula applied to the two-trade run
of the win-ratio scenario. -/
theorem winFrac_denominator_is_total_witness :
    (exBtWins.run exRowsWins exSigWins).1 ≠ [] ∧
    (exBtWins.build_summary (exBtWins.run exRowsWins exSigWins).1
        (exBtWins.run exRowsWins exSigWins).2).winFrac =
      some (pyRound ((sellWinCount (exBtWins.run exRowsWins exSigWins).1 : ℚ) /
        ((exBtWins.run exRowsWins exSigWins).1.length : ℚ)) 2) :=
  ⟨by with_unfolding_all decide,
    winFrac_denominator_is_total exBtWins (exBtWins.run exRowsWins exSigWins).1
      (exBtWins.run exRowsWins exSigWins).2 (by with_unfolding_all decide)⟩

/-- Folding the pad step over rows that all lie after the target date
leaves the accumulator unchanged. -/
lemma padFold_no_entry (d : ℕ) :
    ∀ (sig : List SigRow) (acc : Option (Option Bool × Option Bool)),
      (∀ e ∈ sig, ¬ e.1 ≤ d) →
      sig.foldl (fun acc e => if e.1 ≤ d then some e.2 else acc) acc = acc := by
  intro sig
  induction sig with
  | nil => intro acc _; rfl
  | cons x xs ih =>
      intro acc hall
      have hx : ¬ x.1 ≤ d := hall x (List.mem_cons_self x xs)
      simp only [List.foldl_cons, if_neg hx]
      exact ih acc (fun e he => hall e (List.mem_cons_of_mem x he))

/-- The pad lookup serves the last row at or before the target date. -/
lemma padLookup_append (sig1 sig2 : List SigRow) (d0 d : ℕ)
    (b s : Option Bool) (h0 : d0 ≤ d) (h2 : ∀ e ∈ sig2, ¬ e.1 ≤ d) :
    padLookup (sig1 ++ (d0, b, s) :: sig2) d = some (b, s) := by
  unfold padLookup
  rw [List.foldl_append, List.foldl_cons, if_pos h0]
  exact padFold_no_entry d sig2 _ h2

/-- C8, amended: a date with no signal row at or before it reads (false,
false); otherwise the run reads the last signal row at or before the date
(forward fill), each NaN cell of that row read as false.  In particular a
price date missing from the signal index inherits the previous row's
values rather than being treated as false. -/
theorem signal_fill_semantics :
    (∀ (sig : List SigRow) (d : ℕ), (∀ e ∈ sig, ¬ e.1 ≤ d) →
      effSignals sig d = (false, false)) ∧
    (∀ (sig1 sig2 : List SigRow) (d0 d : ℕ) (b s : Option Bool),
      d0 ≤ d → (∀ e ∈ sig2, ¬ e.1 ≤ d) →
      effSignals (sig1 ++ (d0, b, s) :: sig2) d = (b.getD false, s.getD false)) := by
  constructor
  · intro sig d hall
    unfold effSignals padLookup
    rw [padFold_no_entry d sig none hall]
  · intro sig1 sig2 d0 d b s h0 h2
    unfold effSignals
    rw [padLookup_append sig1 sig2 d0 d b s h0 h2]

/-- C8 witness: with no row at or before the date the flags read false;
a NaN buy cell on its exact date reads false; and a date after a true
buy row inherits true by forward fill. -/
theorem signal_fill_semantics_witness :
    ((∀ e ∈ [((5, some true, some true) : SigRow)], ¬ e.1 ≤ 2) ∧
      effSignals [((5, some true, some true) : SigRow)] 2 = (false, false)) ∧
    ((1 : ℕ) ≤ 1 ∧
      effSignals ([] ++ ((1, none, some true) : SigRow) :: []) 1 = (false, true)) ∧
    ((1 : ℕ) ≤ 3 ∧
      effSignals ([] ++ ((1, some true, none) : SigRow) :: []) 3 = (true, false)) :=
  ⟨⟨by with_unfolding_all decide,
      signal_fill_semantics.1 [(5, some true, some true)] 2
        (by with_unfolding_all decide)⟩,
    ⟨by with_unfolding_all decide,
      signal_fill_semantics.2 [] [] 1 1 none (some true)
        (by with_unfolding_all decide) (by with_unfolding_all decide)⟩,
    ⟨by with_unfolding_all decide,
      signal_fill_semantics.2 [] [] 1 3 (some true) none
        (by with_unfolding_all decide) (by with_unfolding_all decide)⟩⟩

/-- Single-instrument engine with too little cash to buy on day 1. -/
def exBtFfill : Backtester := { initial_cash := 50, commission := 0 }

/-- Price rows: a day-1 price too high to afford, a cheaper day 2. -/
def exRowsFfill : List (ℕ × ℚ) := [(1, 100), (2, 40)]

/-- A single signal row: buy on date 1 only; date 2 has no row. -/
def exSigFfill : List SigRow := [(1, some true, some false)]

/-- C8, counterexample: date 2 has no signal row at all, yet the run
executes a BUY on date 2, because the missing date is forward-filled from
the day-1 buy=true row instead of being treated as false (no trade could
have happened on day 1, where cash 50 buys zero shares at price 100). -/
theorem missing_date_not_false_counterexample :
    (exSigFfill.all (fun e => decide (e.1 ≠ 2))) = true ∧
    effSignals exSigFfill 2 = (true, false) ∧
    (exBtFfill.run exRowsFfill exSigFfill).1.countP (fun t => decide (t.date = 2)) = 1 ∧
    (exBtFfill.run exRowsFfill exSigFfill).1.length = 1 := by
  with_unfolding_all decide

/-- Taking the other side twice is the identity. -/
lemma Side.other_other (e : Side) : e.other.other = e := by
  cases e <;> rfl

/-- A fold preserves any predicate preserved by each step. -/
lemma foldlPreserves {α β : Type} (P : β → Prop) (f : β → α → β)
    (hstep : ∀ b a, P b → P (f b a)) :
    ∀ (l : List α) (b : β), P b → P (l.foldl f b) := by
  intro l
  induction l with
  | nil => intro b hb; exact hb
  | cons x xs ih => intro b hb; exact ih _ (hstep b x hb)

/-- The expected side commutes with peeling one element off an
alternating list. -/
lemma expectedSide_cons (e : Side) (x : Side) (xs : List Side) :
    expectedSide e (x :: xs) = expectedSide e.other xs := by
  unfold expectedSide
  simp only [List.length_cons]
  by_cases hev : Even xs.length
  · have hno : ¬ Even (xs.length + 1) := by simp [Nat.even_add_one, hev]
    rw [if_neg hno, if_pos hev]
  · have hyes : Even (xs.length + 1) := by simp [Nat.even_add_one, hev]
    rw [if_pos hyes, if_neg hev, Side.other_other]

/-- Appending the expected side keeps a list alternating. -/
lemma isAltFrom_snoc (l : List Side) :
    ∀ e : Side, isAltFrom e l = true →
      isAltFrom e (l ++ [expectedSide e l]) = true := by
  induction l with
  | nil => intro e _; simp [isAltFrom, expectedSide]
  | cons x xs ih =>
      intro e h
      simp only [isAltFrom, Bool.and_eq_true, decide_eq_true_eq] at h
      obtain ⟨hx, hrest⟩ := h
      simp only [List.cons_append, isAltFrom, Bool.and_eq_true, decide_eq_true_eq]
      refine ⟨hx, ?_⟩
      rw [expectedSide_cons]
      exact ih e.other hrest

/-- The per-instrument side lists after appending one trade record. -/
lemma sidesFor_append (s : String) (log : List TradeRecord) (rec : TradeRecord) :
    sidesFor s (log ++ [rec]) =
      sidesFor s log ++ (if rec.stock = s then [rec.side] else []) := by
  unfold sidesFor
  rw [List.filter_append, List.map_append]
  congr 1
  by_cases h : rec.stock = s
  · simp [List.filter, h]
  · simp [List.filter, h]

/-- An approved buy starts from a flat position, buys a positive quantity
int(availableCash / price), and the price fits in the available cash. -/
lemma can_buy_true (pm : PortfolioManager) (stock : String) (price : ℚ)
    (prices : String → Option ℚ)
    (h : (pm.can_buy stock price prices).1 = true) :
    pm.positions stock = 0 ∧ 0 < (pm.can_buy stock price prices).2 ∧
      price ≤ pm.get_available_cash_for_stock prices ∧
      (pm.can_buy stock price prices).2 =
        pyTrunc (pm.get_available_cash_for_stock prices / price) := by
  by_cases h1 : 0 < pm.positions stock
  · exfalso
    simp [PortfolioManager.can_buy, h1] at h
  · by_cases h2 : pm.get_available_cash_for_stock prices < price
    · exfalso
      simp [PortfolioManager.can_buy, h1, h2] at h
    · have hval : pm.can_buy stock price prices =
          (decide (0 < pyTrunc (pm.get_available_cash_for_stock prices / price)),
            pyTrunc (pm.get_available_cash_for_stock prices / price)) := by
        simp [PortfolioManager.can_buy, h1, h2]
      rw [hval] at h ⊢
      simp only [decide_eq_true_eq] at h
      exact ⟨Nat.eq_zero_of_not_pos h1, h, not_lt.mp h2, rfl⟩

/-- An approved sell starts from a long position. -/
lemma can_sell_true (pm : PortfolioManager) (stock : String)
    (h : (pm.can_sell stock).1 = true) : 0 < pm.positions stock := by
  unfold PortfolioManager.can_sell at h
  simp only [decide_eq_true_eq] at h
  exact h

/-- Executing a buy preserves the alternation invariant. -/
lemma execute_buy_altInv (pm : PortfolioManager) (stock : String) (price : ℚ)
    (date : ℕ) (prices : String → Option ℚ) (h : AltInv pm) :
    AltInv (pm.execute_buy stock price date prices).1 := by
  by_cases hcb : (pm.can_buy stock price prices).1 = true
  · obtain ⟨hflat, hq, -, -⟩ := can_buy_true pm stock price prices hcb
    intro s
    obtain ⟨halt, hodd⟩ := h s
    simp only [PortfolioManager.execute_buy, hcb, if_true]
    rw [sidesFor_append]
    by_cases hs : stock = s
    · subst hs
      rw [if_pos rfl, if_pos rfl]
      have hnotodd : ¬ Odd (sidesFor stock pm.trade_log).length := by
        rw [hodd, hflat]
        exact lt_irrefl 0
      have heven : Even (sidesFor stock pm.trade_log).length :=
        Nat.not_odd_iff_even.mp hnotodd
      have hexp : expectedSide .BUY (sidesFor stock pm.trade_log) = .BUY := by
        unfold expectedSide
        rw [if_pos heven]
      constructor
      · have := isAltFrom_snoc (sidesFor stock pm.trade_log) .BUY halt
        rwa [hexp] at this
      · rw [List.length_append, List.length_singleton]
        rw [Nat.odd_add_one, Nat.not_odd_iff_even]
        constructor
        · intro _
          rw [hflat]
          omega
        · intro _
          exact heven
    · rw [if_neg hs, List.append_nil]
      have hs' : ¬ s = stock := fun hss => hs hss.symm
      rw [if_neg hs']
      exact ⟨halt, hodd⟩
  · simp only [PortfolioManager.execute_buy, Bool.not_eq_true] at hcb ⊢
    rw [hcb]
    exact h

/-- Executing a sell preserves the alternation invariant. -/
lemma execute_sell_altInv (pm : PortfolioManager) (stock : String) (price : ℚ)
    (date : ℕ) (h : AltInv pm) :
    AltInv (pm.execute_sell stock price date).1 := by
  by_cases hcs : (pm.can_sell stock).1 = true
  · have hlong := can_sell_true pm stock hcs
    intro s
    obtain ⟨halt, hodd⟩ := h s
    simp only [PortfolioManager.execute_sell, hcs, if_true]
    rw [sidesFor_append]
    by_cases hs : stock = s
    · subst hs
      rw [if_pos rfl, if_pos rfl]
      have hoddlen : Odd (sidesFor stock pm.trade_log).length := hodd.mpr hlong
      have hexp : expectedSide .BUY (sidesFor stock pm.trade_log) = .SELL := by
        unfold expectedSide
        rw [if_neg (Nat.not_even_iff_odd.mpr hoddlen)]
        rfl
      constructor
      · have := isAltFrom_snoc (sidesFor stock pm.trade_log) .BUY halt
        rwa [hexp] at this
      · rw [List.length_append, List.length_singleton]
        rw [Nat.odd_add_one, Nat.not_odd_iff_even]
        constructor
        · intro hev
          exact absurd hoddlen (Nat.not_odd_iff_even.mpr hev)
        · intro hcon
          omega
    · rw [if_neg hs, List.append_nil]
      have hs' : ¬ s = stock := fun hss => hs hss.symm
      rw [if_neg hs']
      exact ⟨halt, hodd⟩
  · simp only [PortfolioManager.execute_sell, Bool.not_eq_true] at hcs ⊢
    rw [hcs]
    exact h

/-- One ticker step preserves the alternation invariant. -/
lemma processTicker_altInv (data : MarketData) (date : ℕ)
    (pm : PortfolioManager) (ticker : String) (h : AltInv pm) :
    AltInv (processTicker data date pm ticker) := by
  unfold processTicker
  cases hdata : data ticker date with
  | none => exact h
  | some r =>
      obtain ⟨p, b, sf⟩ := r
      show AltInv (if b then (pm.execute_buy ticker p date (pricesOn data date)).1
        else if sf then (pm.execute_sell ticker p date).1 else pm)
      by_cases hb : b = true
      · rw [if_pos hb]
        exact execute_buy_altInv pm ticker p date (pricesOn data date) h
      · rw [if_neg hb]
        by_cases hsf : sf = true
        · rw [if_pos hsf]
          exact execute_sell_altInv pm ticker p date h
        · rw [if_neg hsf]
          exact h

/-- A daily snapshot changes neither the trade log nor the positions. -/
lemma update_daily_value_altInv (pm : PortfolioManager) (date : ℕ)
    (prices : String → Option ℚ) (h : AltInv pm) :
    AltInv (pm.update_daily_value date prices) := h

/-- One day of the engine loop preserves the alternation invariant. -/
lemma stepDay_altInv (data : MarketData) (tickers : List String)
    (pm : PortfolioManager) (date : ℕ) (h : AltInv pm) :
    AltInv (stepDay data tickers pm date) := by
  simp only [stepDay]
  have h1 : AltInv ((tickers.filter (fun t => (data t date).isSome)).foldl
      (processTicker data date) pm) :=
    foldlPreserves AltInv (processTicker data date)
      (fun b a hb => processTicker_altInv data date b a hb) _ pm h
  split_ifs
  · exact h1
  · exact update_daily_value_altInv _ date _ h1

/-- C6: in every run of the multi-instrument engine, each instrument's
trade records strictly alternate BUY, SELL, BUY, ... starting with BUY,
the share count (a natural number) is never negative, and it is positive
exactly when the instrument's side list has odd length, i.e. between a
BUY and the next SELL. -/
theorem instrument_trades_alternate (data : MarketData) (tickers : List String)
    (dates : List ℕ) (config : PortfolioConfig) (s : String) :
    isAltFrom .BUY
      (sidesFor s (runPortfolioBacktest data tickers dates config).trade_log) = true ∧
    0 ≤ (runPortfolioBacktest data tickers dates config).positions s ∧
    (Odd (sidesFor s (runPortfolioBacktest data tickers dates config).trade_log).length ↔
      0 < (runPortfolioBacktest data tickers dates config).positions s) := by
  have hinit : AltInv (PortfolioManager.init config tickers) := by
    intro t
    constructor
    · rfl
    · simp [sidesFor, PortfolioManager.init]
  have hrun : AltInv (runPortfolioBacktest data tickers dates config) :=
    foldlPreserves AltInv (stepDay data tickers)
      (fun b a hb => stepDay_altInv data tickers b a hb) dates
      (PortfolioManager.init config tickers) hinit
  exact ⟨(hrun s).1, Nat.zero_le _, (hrun s).2⟩

/-- The mark-to-market value of the holdings is nonnegative when every
available price is nonnegative. -/
lemma stock_value_nonneg (pm : PortfolioManager) (prices : String → Option ℚ)
    (hpr : ∀ s, 0 ≤ (prices s).getD 0) :
    0 ≤ (pm.stocks.map (fun s => (pm.positions s : ℚ) * ((prices s).getD 0))).sum := by
  apply List.sum_nonneg
  intro x hx
  obtain ⟨s, -, rfl⟩ := List.mem_map.mp hx
  exact mul_nonneg (Nat.cast_nonneg _) (hpr s)

/-- The allocator never hands out more than cash minus the reserve when it
hands out at least one share's price. -/
lemma available_le_unreserved (pm : PortfolioManager)
    (prices : String → Option ℚ)
    (hpos : 0 < pm.get_available_cash_for_stock prices) :
    pm.get_available_cash_for_stock prices ≤
      pm.cash - pm.get_portfolio_value prices * pm.config.min_cash_reserve := by
  have hle : pm.get_available_cash_for_stock prices ≤
      max 0 (pm.cash - pm.get_portfolio_value prices * pm.config.min_cash_reserve) :=
    min_le_left _ _
  by_cases hx : 0 ≤ pm.cash - pm.get_portfolio_value prices * pm.config.min_cash_reserve
  · rwa [max_eq_right hx] at hle
  · exfalso
    rw [max_eq_left (le_of_lt (not_le.mp hx))] at hle
    exact absurd (lt_of_lt_of_le hpos hle) (lt_irrefl 0)

/-- Executing a buy keeps cash nonnegative. -/
lemma execute_buy_cashInv (pm : PortfolioManager) (stock : String) (price : ℚ)
    (date : ℕ) (prices : String → Option ℚ)
    (hg : GoodConfig pm.config)
    (hpr : ∀ s, 0 ≤ (prices s).getD 0)
    (hprice : 0 < price)
    (hinv : CashInv pm) :
    CashInv (pm.execute_buy stock price date prices).1 := by
  obtain ⟨hcash0, hlog, hdaily⟩ := hinv
  obtain ⟨hc0, hc1, hr0, hgross⟩ := hg
  by_cases hcb : (pm.can_buy stock price prices).1 = true
  · obtain ⟨hflat, hq, hple, hqval⟩ := can_buy_true pm stock price prices hcb
    have hac0 : 0 < pm.get_available_cash_for_stock prices :=
      lt_of_lt_of_le hprice hple
    have hkey := available_le_unreserved pm prices hac0
    have hsv := stock_value_nonneg pm prices hpr
    have hpv : pm.get_portfolio_value prices =
        pm.cash + (pm.stocks.map
          (fun s => (pm.positions s : ℚ) * ((prices s).getD 0))).sum := rfl
    have hdiv0 : 0 ≤ pm.get_available_cash_for_stock prices / price :=
      le_of_lt (div_pos hac0 hprice)
    have hqfloor : (pm.can_buy stock price prices).2 =
        ⌊pm.get_available_cash_for_stock prices / price⌋ := by
      rw [hqval]
      unfold pyTrunc
      rw [if_pos hdiv0]
    have hqle : (((pm.can_buy stock price prices).2 : ℤ) : ℚ) ≤
        pm.get_available_cash_for_stock prices / price := by
      rw [hqfloor]
      exact Int.floor_le _
    have htn : (((pm.can_buy stock price prices).2.toNat : ℕ) : ℚ) =
        (((pm.can_buy stock price prices).2 : ℤ) : ℚ) := by
      have := Int.toNat_of_nonneg (le_of_lt hq)
      exact_mod_cast congrArg (fun z : ℤ => (z : ℚ)) this
    have htv : price * (((pm.can_buy stock price prices).2.toNat : ℕ) : ℚ) ≤
        pm.get_available_cash_for_stock prices := by
      rw [htn]
      calc price * (((pm.can_buy stock price prices).2 : ℤ) : ℚ) ≤
          price * (pm.get_available_cash_for_stock prices / price) :=
            mul_le_mul_of_nonneg_left hqle (le_of_lt hprice)
        _ = pm.get_available_cash_for_stock prices := by
            rw [mul_comm, div_mul_cancel₀ _ (ne_of_gt hprice)]
    have hsvr : 0 ≤ (pm.stocks.map
        (fun s => (pm.positions s : ℚ) * ((prices s).getD 0))).sum *
          pm.config.min_cash_reserve := mul_nonneg hsv hr0
    have h1 : price * (((pm.can_buy stock price prices).2.toNat : ℕ) : ℚ) ≤
        pm.cash * (1 - pm.config.min_cash_reserve) := by
      rw [hpv] at hkey
      nlinarith [htv, hkey]
    have htv0 : 0 ≤ price * (((pm.can_buy stock price prices).2.toNat : ℕ) : ℚ) :=
      mul_nonneg (le_of_lt hprice) (Nat.cast_nonneg _)
    have h2 : price * (((pm.can_buy stock price prices).2.toNat : ℕ) : ℚ) *
        (1 + pm.config.commission) ≤
        pm.cash * (1 - pm.config.min_cash_reserve) * (1 + pm.config.commission) :=
      mul_le_mul_of_nonneg_right h1 (by linarith)
    have h3 : pm.cash * (1 - pm.config.min_cash_reserve) *
        (1 + pm.config.commission) ≤ pm.cash := by
      calc pm.cash * (1 - pm.config.min_cash_reserve) * (1 + pm.config.commission)
          = pm.cash * ((1 - pm.config.min_cash_reserve) *
              (1 + pm.config.commission)) := by ring
        _ ≤ pm.cash * 1 := mul_le_mul_of_nonneg_left hgross hcash0
        _ = pm.cash := mul_one _
    have hcash' : 0 ≤ pm.cash -
        (price * (((pm.can_buy stock price prices).2.toNat : ℕ) : ℚ) +
          price * (((pm.can_buy stock price prices).2.toNat : ℕ) : ℚ) *
            pm.config.commission) := by
      nlinarith [h2, h3]
    simp only [PortfolioManager.execute_buy, hcb, if_true]
    refine ⟨hcash', ?_, hdaily⟩
    intro r hr
    rcases List.mem_append.mp hr with hmem | hmem
    · exact hlog r hmem
    · rw [List.mem_singleton.mp hmem]
      exact hcash'
  · simp only [PortfolioManager.execute_buy, Bool.not_eq_true] at hcb ⊢
    rw [hcb]
    exact ⟨hcash0, hlog, hdaily⟩

/-- Executing a sell keeps cash nonnegative. -/
lemma execute_sell_cashInv (pm : PortfolioManager) (stock : String) (price : ℚ)
    (date : ℕ) (hg : GoodConfig pm.config) (hprice : 0 < price)
    (hinv : CashInv pm) :
    CashInv (pm.execute_sell stock price date).1 := by
  obtain ⟨hcash0, hlog, hdaily⟩ := hinv
  obtain ⟨hc0, hc1, hr0, hgross⟩ := hg
  by_cases hcs : (pm.can_sell stock).1 = true
  · have htv0 : 0 ≤ price * ((pm.positions stock : ℕ) : ℚ) :=
      mul_nonneg (le_of_lt hprice) (Nat.cast_nonneg _)
    have hrecv : 0 ≤ price * ((pm.positions stock : ℕ) : ℚ) -
        price * ((pm.positions stock : ℕ) : ℚ) * pm.config.commission := by
      nlinarith [htv0]
    have hcash' : 0 ≤ pm.cash + (price * ((pm.positions stock : ℕ) : ℚ) -
        price * ((pm.positions stock : ℕ) : ℚ) * pm.config.commission) := by
      linarith
    simp only [PortfolioManager.execute_sell, hcs, if_true]
    refine ⟨hcash', ?_, hdaily⟩
    intro r hr
    rcases List.mem_append.mp hr with hmem | hmem
    · exact hlog r hmem
    · rw [List.mem_singleton.mp hmem]
      exact hcash'
  · simp only [PortfolioManager.execute_sell, Bool.not_eq_true] at hcs ⊢
    rw [hcs]
    exact ⟨hcash0, hlog, hdaily⟩

/-- A daily snapshot records the current nonnegative cash. -/
lemma update_daily_value_cashInv (pm : PortfolioManager) (date : ℕ)
    (prices : String → Option ℚ) (hinv : CashInv pm) :
    CashInv (pm.update_daily_value date prices) := by
  obtain ⟨hcash0, hlog, hdaily⟩ := hinv
  refine ⟨hcash0, hlog, ?_⟩
  intro dv hdv
  rcases List.mem_append.mp hdv with hmem | hmem
  · exact hdaily dv hmem
  · rw [List.mem_singleton.mp hmem]
    exact hcash0

/-- Every price served for a date by positive market data is nonnegative. -/
lemma pricesOn_nonneg (data : MarketData) (date : ℕ)
    (hpos : DataPricesPos data) :
    ∀ s, 0 ≤ ((pricesOn data date) s).getD 0 := by
  intro s
  cases hd : data s date with
  | none =>
      show 0 ≤ ((data s date).map (fun r => r.1)).getD 0
      rw [hd]
      exact le_refl 0
  | some r =>
      show 0 ≤ ((data s date).map (fun r => r.1)).getD 0
      rw [hd]
      exact le_of_lt (hpos s date r hd)

/-- A buy attempt keeps the configuration unchanged. -/
lemma execute_buy_config (pm : PortfolioManager) (stock : String) (price : ℚ)
    (date : ℕ) (prices : String → Option ℚ) :
    (pm.execute_buy stock price date prices).1.config = pm.config := by
  rcases Bool.eq_false_or_eq_true (pm.can_buy stock price prices).1 with hcb | hcb <;>
    simp [PortfolioManager.execute_buy, hcb]

/-- A sell attempt keeps the configuration unchanged. -/
lemma execute_sell_config (pm : PortfolioManager) (stock : String) (price : ℚ)
    (date : ℕ) :
    (pm.execute_sell stock price date).1.config = pm.config := by
  rcases Bool.eq_false_or_eq_true (pm.can_sell stock).1 with hcs | hcs <;>
    simp [PortfolioManager.execute_sell, hcs]

/-- Each op of one ticker's day keeps the config unchanged. -/
lemma processTicker_config (data : MarketData) (date : ℕ)
    (pm : PortfolioManager) (ticker : String) :
    (processTicker data date pm ticker).config = pm.config := by
  unfold processTicker
  cases hdata : data ticker date with
  | none => rfl
  | some r =>
      obtain ⟨p, b, sf⟩ := r
      show (if b then (pm.execute_buy ticker p date (pricesOn data date)).1
        else if sf then (pm.execute_sell ticker p date).1 else pm).config = pm.config
      by_cases hb : b = true
      · rw [if_pos hb]
        exact execute_buy_config pm ticker p date (pricesOn data date)
      · rw [if_neg hb]
        by_cases hsf : sf = true
        · rw [if_pos hsf]
          exact execute_sell_config pm ticker p date
        · rw [if_neg hsf]

/-- One ticker's day keeps cash nonnegative. -/
lemma processTicker_cashInv (data : MarketData) (date : ℕ)
    (pm : PortfolioManager) (ticker : String)
    (hg : GoodConfig pm.config) (hpos : DataPricesPos data)
    (hinv : CashInv pm) :
    CashInv (processTicker data date pm ticker) := by
  unfold processTicker
  cases hdata : data ticker date with
  | none => exact hinv
  | some r =>
      obtain ⟨p, b, sf⟩ := r
      have hp : 0 < p := hpos ticker date (p, b, sf) hdata
      show CashInv (if b then (pm.execute_buy ticker p date (pricesOn data date)).1
        else if sf then (pm.execute_sell ticker p date).1 else pm)
      by_cases hb : b = true
      · rw [if_pos hb]
        exact execute_buy_cashInv pm ticker p date (pricesOn data date) hg
          (pricesOn_nonneg data date hpos) hp hinv
      · rw [if_neg hb]
        by_cases hsf : sf = true
        · rw [if_pos hsf]
          exact execute_sell_cashInv pm ticker p date hg hp hinv
        · rw [if_neg hsf]
          exact hinv

/-- A daily snapshot keeps the configuration unchanged. -/
lemma update_daily_value_config (pm : PortfolioManager) (date : ℕ)
    (prices : String → Option ℚ) :
    (pm.update_daily_value date prices).config = pm.config := rfl

/-- One day of the engine loop preserves nonnegative cash and the
configuration. -/
lemma stepDay_cash (data : MarketData) (tickers : List String)
    (config : PortfolioConfig) (hgc : GoodConfig config)
    (hpos : DataPricesPos data) (pm : PortfolioManager) (date : ℕ)
    (h : pm.config = config ∧ CashInv pm) :
    (stepDay data tickers pm date).config = config ∧
      CashInv (stepDay data tickers pm date) := by
  obtain ⟨hcfg, hinv⟩ := h
  simp only [stepDay]
  have hfold := foldlPreserves (fun q => q.config = config ∧ CashInv q)
    (processTicker data date)
    (fun b a hb => ⟨by rw [processTicker_config]; exact hb.1,
      processTicker_cashInv data date b a (by rw [hb.1]; exact hgc) hpos hb.2⟩)
    (tickers.filter (fun t => (data t date).isSome)) pm ⟨hcfg, hinv⟩
  split_ifs
  · exact hfold
  · exact ⟨by rw [update_daily_value_config]; exact hfold.1,
      update_daily_value_cashInv _ date _ hfold.2⟩

/-- C5, amended: with valid configuration and positive prices, and
additionally commissionRate at most 1 and
(1 - minReserveFraction)*(1 + commissionRate) at most 1 (so the reserve
can absorb the commission the buy sizing ignores), every trade record has
cash_after nonnegative and every snapshot has nonnegative cash. -/
theorem cash_nonneg_with_reserve (data : MarketData) (tickers : List String)
    (dates : List ℕ) (config : PortfolioConfig)
    (hinit : 0 < config.initial_cash)
    (_hmax0 : 0 < config.max_position_size)
    (_hmax1 : config.max_position_size ≤ 1)
    (hres0 : 0 ≤ config.min_cash_reserve)
    (_hres1 : config.min_cash_reserve < 1)
    (hcom0 : 0 ≤ config.commission)
    (hcom1 : config.commission ≤ 1)
    (hgross : (1 - config.min_cash_reserve) * (1 + config.commission) ≤ 1)
    (hpos : DataPricesPos data) :
    (∀ rec ∈ (runPortfolioBacktest data tickers dates config).trade_log,
      0 ≤ rec.cash_after) ∧
    (∀ dv ∈ (runPortfolioBacktest data tickers dates config).daily_values,
      0 ≤ dv.cash) := by
  have hgc : GoodConfig config := ⟨hcom0, hcom1, hres0, hgross⟩
  have hinitInv : (PortfolioManager.init config tickers).config = config ∧
      CashInv (PortfolioManager.init config tickers) := by
    refine ⟨rfl, le_of_lt hinit, ?_, ?_⟩
    · intro r hr
      exact absurd hr (List.not_mem_nil r)
    · intro dv hdv
      exact absurd hdv (List.not_mem_nil dv)
  have hrun := foldlPreserves (fun q => q.config = config ∧ CashInv q)
    (stepDay data tickers)
    (fun b a hb => stepDay_cash data tickers config hgc hpos b a hb)
    dates (PortfolioManager.init config tickers) hinitInv
  exact ⟨hrun.2.2.1, hrun.2.2.2⟩

/-- Market data with a single affordable buy day, used to drive cash
negative through the commission. -/
def exDataComm : MarketData := fun s d =>
  if s = "A" ∧ d = 1 then some (100, true, false) else none

/-- A claim-valid configuration with zero reserve and a positive
commission rate. -/
def exCfgComm : PortfolioConfig :=
  { initial_cash := 100, commission := 1 / 10, max_position_size := 1,
    min_cash_reserve := 0 }

/-- C5, counterexample: under a configuration that is valid in the claim's
sense (initialCash 100 > 0, maxPositionFraction 1, minReserveFraction 0,
commissionRate 1/10 >= 0) and a positive price, the single BUY sizes the
position by available cash alone, the commission is charged on top, and
cash lands at -10: the trade record's cash_after and the snapshot's cash
are both negative. -/
theorem cash_goes_negative_counterexample :
    (0 < exCfgComm.initial_cash ∧ 0 < exCfgComm.max_position_size ∧
      exCfgComm.max_position_size ≤ 1 ∧ 0 ≤ exCfgComm.min_cash_reserve ∧
      exCfgComm.min_cash_reserve < 1 ∧ 0 ≤ exCfgComm.commission) ∧
    DataPricesPos exDataComm ∧
    ((runPortfolioBacktest exDataComm ["A"] [1] exCfgComm).trade_log.map
      (fun r => r.cash_after)) = [-10] ∧
    ((runPortfolioBacktest exDataComm ["A"] [1] exCfgComm).daily_values.map
      (fun dv => dv.cash)) = [-10] := by
  refine ⟨by with_unfolding_all decide, ?_, by with_unfolding_all decide,
    by with_unfolding_all decide⟩
  intro s d r h
  unfold exDataComm at h
  split_ifs at h with hc
  all_goals injection h with h'
  all_goals rw [← h']
  all_goals norm_num

/-- Market data for the reserve witness: a buy day then a sell day. -/
def exDataRes : MarketData := fun s d =>
  if s = "A" then
    if d = 1 then some (100, true, false)
    else if d = 2 then some (110, false, true)
    else none
  else none

/-- A configuration satisfying the amended reserve condition. -/
def exCfgRes : PortfolioConfig :=
  { initial_cash := 1000, commission := 1 / 20, max_position_size := 1 / 4,
    min_cash_reserve := 1 / 10 }

/-- C5 witness: the amended cash bound applied to a two-day run with a 5
percent commission and a 10 percent reserve. -/
theorem cash_nonneg_with_reserve_witness :
    (0 < exCfgRes.initial_cash ∧ 0 < exCfgRes.max_position_size ∧
      exCfgRes.max_position_size ≤ 1 ∧ 0 ≤ exCfgRes.min_cash_reserve ∧
      exCfgRes.min_cash_reserve < 1 ∧ 0 ≤ exCfgRes.commission ∧
      exCfgRes.commission ≤ 1 ∧
      (1 - exCfgRes.min_cash_reserve) * (1 + exCfgRes.commission) ≤ 1) ∧
    (∀ rec ∈ (runPortfolioBacktest exDataRes ["A"] [1, 2] exCfgRes).trade_log,
      0 ≤ rec.cash_after) ∧
    (∀ dv ∈ (runPortfolioBacktest exDataRes ["A"] [1, 2] exCfgRes).daily_values,
      0 ≤ dv.cash) := by
  have hpos : DataPricesPos exDataRes := by
    intro s d r h
    unfold exDataRes at h
    split_ifs at h with h1 h2 h3
    all_goals injection h with h'
    all_goals rw [← h']
    all_goals norm_num
  refine ⟨by with_unfolding_all decide, ?_⟩
  exact cash_nonneg_with_reserve exDataRes ["A"] [1, 2] exCfgRes
    (by with_unfolding_all decide) (by with_unfolding_all decide)
    (by with_unfolding_all decide) (by with_unfolding_all decide)
    (by with_unfolding_all decide) (by with_unfolding_all decide)
    (by with_unfolding_all decide) (by with_unfolding_all decide) hpos

/-- Overwriting one frame leaves every other reference unchanged. -/
lemma getF_setF_ne (st : Store) (j i : ℕ) (f : Frame) (hne : i ≠ j) :
    (st.setF j f).getF i = st.getF i := by
  unfold Store.setF Store.getF
  rw [List.getD_eq_getElem?_getD, List.getD_eq_getElem?_getD,
    List.getElem?_set_ne (fun hh => hne hh.symm)]

/-- Allocation leaves every existing reference unchanged. -/
lemma getF_alloc (st : Store) (f : Frame) (i : ℕ) (hi : i < st.length) :
    (st.alloc f).1.getF i = st.getF i := by
  unfold Store.alloc Store.getF
  rw [List.getD_eq_getElem?_getD, List.getD_eq_getElem?_getD,
    List.getElem?_append_left hi]

/-- Overwriting one frame keeps the store size. -/
lemma length_setF (st : Store) (j : ℕ) (f : Frame) :
    (st.setF j f).length = st.length := List.length_set st j f

/-- Allocation grows the store by one. -/
lemma length_alloc (st : Store) (f : Frame) :
    (st.alloc f).1.length = st.length + 1 := by
  unfold Store.alloc
  simp

/-- The loop writes only to the df copy: every reference below the
original store size survives one step, and the store size is kept. -/
lemma btFrameStep_preserves (bt : Backtester) (dfId : ℕ) (store0 : Store)
    (L : ℕ) (hdf : store0.length ≤ dfId)
    (acc : Store × BtState × List BtTrade) (ts : ℕ)
    (h : acc.1.length = L ∧ ∀ i, i < store0.length → acc.1.getF i = store0.getF i) :
    (btFrameStep bt dfId acc ts).1.length = L ∧
      ∀ i, i < store0.length →
        (btFrameStep bt dfId acc ts).1.getF i = store0.getF i := by
  obtain ⟨hlen, hsame⟩ := h
  constructor
  · show (acc.1.setF dfId _).length = L
    rw [length_setF]
    exact hlen
  · intro i hi
    show (acc.1.setF dfId _).getF i = store0.getF i
    rw [getF_setF_ne _ _ _ _ (fun he => absurd hdf (by omega))]
    exact hsame i hi

/-- The preparation phase writes only to the freshly allocated copy: the
df reference is the first fresh slot, the store grows by exactly the two
allocations, and every preexisting reference is untouched. -/
lemma btPrep_spec (store : Store) (priceId sigId : ℕ) :
    (btPrep store priceId sigId).2.1 = store.length ∧
    (btPrep store priceId sigId).1.length = store.length + 2 ∧
    ∀ i, i < store.length →
      (btPrep store priceId sigId).1.getF i = store.getF i := by
  refine ⟨rfl, ?_, ?_⟩
  · simp only [btPrep, length_setF, length_alloc]
  · intro i hi
    have hne : i ≠ (store.alloc (store.getF priceId)).2 := by
      show i ≠ store.length
      omega
    simp only [btPrep]
    rw [getF_setF_ne _ _ _ _ hne, getF_setF_ne _ _ _ _ hne,
      getF_setF_ne _ _ _ _ hne, getF_setF_ne _ _ _ _ hne,
      getF_setF_ne _ _ _ _ hne, getF_alloc, getF_alloc _ _ _ hi]
    show i < (store ++ [store.getF priceId]).length
    simp
    omega

/-- C10: Backtester.run never writes to its price_df or signals inputs:
after the whole run, both input frame references still hold exactly the
frames they held before the call; every derived column and every equity
cell was written to the internal copy only. -/
theorem run_preserves_input_frames (bt : Backtester) (store : Store)
    (priceId sigId : ℕ) (hp : priceId < store.length)
    (hs : sigId < store.length) :
    (bt.runFrames store priceId sigId).1.getF priceId = store.getF priceId ∧
    (bt.runFrames store priceId sigId).1.getF sigId = store.getF sigId := by
  obtain ⟨hdf, hlen, hpres⟩ := btPrep_spec store priceId sigId
  have key : ∀ i, i < store.length →
      (bt.runFrames store priceId sigId).1.getF i = store.getF i := by
    intro i hi
    have hfold := foldlPreserves
      (fun acc : Store × BtState × List BtTrade =>
        acc.1.length = store.length + 2 ∧
          ∀ j, j < store.length → acc.1.getF j = store.getF j)
      (btFrameStep bt (btPrep store priceId sigId).2.1)
      (fun b a hb => btFrameStep_preserves bt _ store (store.length + 2)
        (le_of_eq hdf.symm) b a hb)
      (((btPrep store priceId sigId).1.getF (btPrep store priceId sigId).2.1).index)
      ((btPrep store priceId sigId).1,
        ({ cash := bt.initial_cash, position := 0 } : BtState), [])
      ⟨hlen, hpres⟩
    simp only [Backtester.runFrames]
    rw [getF_alloc]
    · exact hfold.2 i hi
    · rw [hfold.1]
      omega
  exact ⟨key priceId hp, key sigId hs⟩

/-- A concrete two-frame store: a price frame and a signals frame. -/
def exStoreFrames : Store :=
  [{ index := [1, 2], cols := [("close", [Cell.num 100, Cell.num 110])] },
   { index := [1], cols := [("buy", [Cell.flag true]), ("sell", [Cell.flag false])] }]

/-- C10 witness: a run over the concrete two-frame store leaves both input
frames exactly as they were. -/
theorem run_preserves_input_frames_witness :
    0 < exStoreFrames.length ∧ 1 < exStoreFrames.length ∧
    (({ initial_cash := 1000, commission := 0 } :
        Backtester).runFrames exStoreFrames 0 1).1.getF 0 = exStoreFrames.getF 0 ∧
    (({ initial_cash := 1000, commission := 0 } :
        Backtester).runFrames exStoreFrames 0 1).1.getF 1 = exStoreFrames.getF 1 :=
  ⟨by with_unfolding_all decide, by with_unfolding_all decide,
    (run_preserves_input_frames { initial_cash := 1000, commission := 0 }
      exStoreFrames 0 1 (by with_unfolding_all decide)
      (by with_unfolding_all decide)).1,
    (run_preserves_input_frames { initial_cash := 1000, commission := 0 }
      exStoreFrames 0 1 (by with_unfolding_all decide)
      (by with_unfolding_all decide)).2⟩

end AlgoTrading
